import Mathlib

/-!
Verification development for the d1-picks Data Reconciliation & Edge-Scoring
Engine: team-name normalization, schedule/prediction merging, odds matching,
edge computation, score classification, and the fallback linear-regression
predictor.  Strings are modelled as lists of characters; JavaScript number
arithmetic is modelled over the rationals.
-/

/-- Strings are modelled as lists of characters. -/
abbrev Str := List Char

/-- Lowercasing of a whole string, as in JS `toLowerCase` (ASCII letters). -/
def toLowerStr (s : Str) : Str := s.map Char.toLower

/-- JS `trim`: drop whitespace from both ends of the string. -/
def trimStr (s : Str) : Str :=
  ((s.dropWhile Char.isWhitespace).reverse.dropWhile Char.isWhitespace).reverse

/-- JS `replace` of every maximal run of `p`-characters by the single
character `sub`; the flag records whether we are inside a run. -/
def collapseRunsAux (p : Char → Bool) (sub : Char) : Bool → Str → Str
  | _, [] => []
  | inRun, c :: rest =>
    if p c then
      if inRun then collapseRunsAux p sub true rest
      else sub :: collapseRunsAux p sub true rest
    else c :: collapseRunsAux p sub false rest

/-- JS `replace` of every maximal run of `p`-characters by `sub`. -/
def collapseRuns (p : Char → Bool) (sub : Char) (s : Str) : Str :=
  collapseRunsAux p sub false s

/-- `normalized.replace` of whitespace runs by underscores, as in the
fallback branch of `normalizeTeamName`. -/
def collapseWs (s : Str) : Str := collapseRuns Char.isWhitespace '_' s

/-- The first canonical name whose alias list contains `z`, scanning the
team-mappings entries in order (the `for … of Object.entries` loop). -/
def aliasLookup (z : Str) : List (Str × List Str) → Option Str
  | [] => none
  | e :: rest => if z ∈ e.2 then some e.1 else aliasLookup z rest

/-- `normalizeTeamName` from `lib/normalizer.ts`: lowercase and trim the
name, return the canonical name of the first alias-table entry whose alias
list contains it, and otherwise fall back to replacing whitespace runs by
underscores. -/
def normalizeTeamName (tbl : List (Str × List Str)) (name : Str) : Str :=
  let z := trimStr (toLowerStr name)
  match aliasLookup z tbl with
  | some c => c
  | none => collapseWs z

/-- Modelled from the spec: the `team-mappings.json` data file imported by
`lib/normalizer.ts` is not part of the sources; this is the alias table of
the spec's Scenario C, mapping canonical "lsu" to aliases "lsu tigers" and
"lsu". -/
def teamMappings : List (Str × List Str) :=
  [("lsu".data, [("lsu tigers").data, "lsu".data])]

section Classifier

/-- JS `Math.round`: round half toward positive infinity. -/
def jsRound (x : ℚ) : ℤ := ⌊x + 1/2⌋

/-- Rounding to one decimal place, `Math.round(x * 10) / 10`. -/
def round1 (x : ℚ) : ℚ := (jsRound (x * 10) : ℚ) / 10

/-- `calculateAIScore` from `calculators/classifier.ts`:
`Math.min(10, Math.max(1, Math.round((5 + adjustedEdge * 50) * 10) / 10))`. -/
def calculateAIScore (adjustedEdge : ℚ) : ℚ :=
  min 10 (max 1 (round1 (5 + adjustedEdge * 50)))

/-- The pick tiers returned by `getPickLabel`. -/
inductive PickLabel where
  | d1Pick
  | smartBet
  | leanPick
  | passPick
  deriving DecidableEq

/-- Numeric rank of a pick label, used to state monotonicity. -/
def labelRank : PickLabel → ℕ
  | .passPick => 0
  | .leanPick => 1
  | .smartBet => 2
  | .d1Pick => 3

/-- `getPickLabel` from `calculators/classifier.ts`. -/
def getPickLabel (aiScore : ℚ) : PickLabel :=
  if 17/2 ≤ aiScore then .d1Pick
  else if 7 ≤ aiScore then .smartBet
  else if 5 ≤ aiScore then .leanPick
  else .passPick

/-- The legacy classifications returned by `classifyBet`. -/
inductive BetClassification where
  | strongBet
  | goodBet
  | weakBet
  | passBet
  deriving DecidableEq

/-- `classifyBet` from `calculators/classifier.ts` (deprecated thresholds). -/
def classifyBet (adjustedEdge : ℚ) : BetClassification :=
  if 7/100 ≤ adjustedEdge then .strongBet
  else if 5/100 ≤ adjustedEdge then .goodBet
  else if 3/100 ≤ adjustedEdge then .weakBet
  else .passBet

end Classifier

section Moneyline

/-- `moneylineToProb` from `calculators/ev-calculator.ts`:
positive lines give `100 / (ml + 100)`, others `|ml| / (|ml| + 100)`. -/
def moneylineToProb (moneyline : ℚ) : ℚ :=
  if moneyline > 0 then 100 / (moneyline + 100)
  else |moneyline| / (|moneyline| + 100)

/-- `probToMoneyline` from `model-predictor.ts`: favorites (prob ≥ 0.5) get
`round(-100·p/(1-p))`, underdogs `round(100·(1-p)/p)`. -/
def probToMoneyline (prob : ℚ) : ℤ :=
  if 1/2 ≤ prob then jsRound ((-100) * prob / (1 - prob))
  else jsRound (100 * (1 - prob) / prob)

end Moneyline

section DataModel

/-- Venue classification of a `Game` (`lib/types.ts`). -/
inductive VenueType where
  | homeA
  | homeB
  | neutral
  deriving DecidableEq

/-- The canonical `Game` record of `lib/types.ts`. -/
structure Game where
  id : Str
  date : Str
  startTime : Str
  teamA : Str
  teamB : Str
  teamAHome : Bool
  teamBHome : Bool
  venueType : VenueType
  modelProbA : ℚ
  modelProbB : ℚ
  hasPrediction : Bool
  predictionSource : Str
  venue : Option Str
  broadcast : Option Str
  teamARank : Option ℕ
  teamBRank : Option ℕ
  espnGameId : Option Str
  deriving DecidableEq

/-- The `OddsEntry` record of `lib/types.ts`. -/
structure OddsEntry where
  gameId : Str
  homeTeam : Str
  awayTeam : Str
  sportsbook : Str
  team : Str
  moneyline : ℤ
  deriving DecidableEq

/-- The `EdgeCalculation` record returned by `calculateEdge`. -/
structure EdgeCalculation where
  impliedProb : ℚ
  rawEdge : ℚ
  adjustedEdge : ℚ
  modifierReason : Option Str
  deriving DecidableEq

/-- The `BetEdge` record of `lib/types.ts`. -/
structure BetEdge where
  team : Str
  sportsbook : Str
  moneyline : ℤ
  modelProb : ℚ
  impliedProb : ℚ
  rawEdge : ℚ
  adjustedEdge : ℚ
  aiScore : ℚ
  pickLabel : PickLabel
  classification : BetClassification
  modifierReason : Option Str
  deriving DecidableEq

end DataModel

section EvCalculator

/-- `calculateEdge` from `calculators/ev-calculator.ts`: implied probability
from the moneyline, raw edge, and a venue modifier of +0.5% for the home
team or +0.25% on a neutral site. -/
def calculateEdge (modelProb : ℚ) (moneyline : ℚ) (isHome : Bool)
    (isNeutral : Bool) : EdgeCalculation :=
  let impliedProb := moneylineToProb moneyline
  let rawEdge := modelProb - impliedProb
  let m : ℚ × Option Str :=
    if isHome then (5/1000, some ("home: +0.5%").data)
    else if isNeutral then (25/10000, some ("neutral: +0.25%").data)
    else (0, none)
  { impliedProb := impliedProb
    rawEdge := rawEdge
    adjustedEdge := rawEdge + m.1
    modifierReason := m.2 }

/-- The odds entries collected for a team key: `calculateGameEdges` groups
entries under `entry.team.toLowerCase()` and then reads the group at the
game's team name, which equals filtering the entries whose lowercased team
name is that key (in input order). -/
def teamGroup (entries : List OddsEntry) (t : Str) : List OddsEntry :=
  entries.filter (fun e => toLowerStr e.team = t)

/-- The `reduce` in `calculateGameEdges` choosing the entry with the highest
moneyline, keeping the earlier entry on ties. -/
def pickBest (acc : OddsEntry) : List OddsEntry → OddsEntry
  | [] => acc
  | e :: rest => if acc.moneyline < e.moneyline then pickBest e rest
                 else pickBest acc rest

/-- The body of the per-team loop of `calculateGameEdges`: `none` when the
team's odds group is empty (the `continue`), otherwise the `BetEdge` built
from the best odds entry. -/
def edgeForTeam (game : Game) (entries : List OddsEntry) (t : Str) :
    Option BetEdge :=
  match teamGroup entries t with
  | [] => none
  | h :: rest =>
    let bestOdd := pickBest h rest
    let modelProb := if t = game.teamA then game.modelProbA else game.modelProbB
    let isHome := if t = game.teamA then game.teamAHome else game.teamBHome
    let isNeutral := game.venueType = VenueType.neutral
    let edgeCalc := calculateEdge modelProb (bestOdd.moneyline : ℚ) isHome isNeutral
    let aiScore := calculateAIScore edgeCalc.adjustedEdge
    some
      { team := t
        sportsbook := bestOdd.sportsbook
        moneyline := bestOdd.moneyline
        modelProb := modelProb
        impliedProb := edgeCalc.impliedProb
        rawEdge := edgeCalc.rawEdge
        adjustedEdge := edgeCalc.adjustedEdge
        aiScore := aiScore
        pickLabel := getPickLabel aiScore
        classification := classifyBet edgeCalc.adjustedEdge
        modifierReason := edgeCalc.modifierReason }

/-- `calculateGameEdges` from `calculators/ev-calculator.ts`: one optional
edge per entry of `[game.teamA, game.teamB]`. -/
def calculateGameEdges (game : Game) (entries : List OddsEntry) : List BetEdge :=
  [game.teamA, game.teamB].filterMap (edgeForTeam game entries)

end EvCalculator

section Normalizer

/-- The match test of `matchGamesWithOdds` in `lib/normalizer.ts`: the
normalized home and away names of the entry must each be one of the game's
two teams. -/
def oddsTeamsMatch (tbl : List (Str × List Str)) (game : Game)
    (entry : OddsEntry) : Bool :=
  let nh := normalizeTeamName tbl entry.homeTeam
  let na := normalizeTeamName tbl entry.awayTeam
  (nh = game.teamA ∨ nh = game.teamB) ∧ (na = game.teamA ∨ na = game.teamB)

/-- `matchGamesWithOdds` from `lib/normalizer.ts` (the version imported by
the app page, which keeps games with no matching odds): every game is
emitted, paired with the entries that match it. -/
def matchGamesWithOdds (tbl : List (Str × List Str)) (games : List Game)
    (entries : List OddsEntry) : List (Game × List OddsEntry) :=
  games.map (fun g => (g, entries.filter (fun e => oddsTeamsMatch tbl g e)))

/-- The match test of `mergeWarrenNolanPredictions`: the normalized team
pairs agree in the same or in reversed order. -/
def wnTeamsMatch (tbl : List (Str × List Str)) (espnGame wnGame : Game) : Bool :=
  let ea := normalizeTeamName tbl espnGame.teamA
  let eb := normalizeTeamName tbl espnGame.teamB
  let wa := normalizeTeamName tbl wnGame.teamA
  let wb := normalizeTeamName tbl wnGame.teamB
  (ea = wa ∧ eb = wb) ∨ (ea = wb ∧ eb = wa)

/-- The update applied to a matched ESPN game: copy the prediction, swapping
the probabilities when the team order is reversed. -/
def applyPrediction (tbl : List (Str × List Str)) (espnGame wnGame : Game) :
    Game :=
  if normalizeTeamName tbl espnGame.teamA = normalizeTeamName tbl wnGame.teamA
  then
    { espnGame with
        modelProbA := wnGame.modelProbA
        modelProbB := wnGame.modelProbB
        hasPrediction := true
        predictionSource := ("warren_nolan").data }
  else
    { espnGame with
        modelProbA := wnGame.modelProbB
        modelProbB := wnGame.modelProbA
        hasPrediction := true
        predictionSource := ("warren_nolan").data }

/-- The standalone game appended when a prediction matches no ESPN game. -/
def standaloneWnGame (wnGame : Game) : Game :=
  { wnGame with
      hasPrediction := true
      predictionSource := ("warren_nolan").data }

/-- Processing of one Warren Nolan record: `findIndex` locates the first
matching game and the prediction is written there; with no match the record
is pushed at the end. -/
def mergeStep (tbl : List (Str × List Str)) (wnGame : Game) :
    List Game → List Game
  | [] => [standaloneWnGame wnGame]
  | g :: rest =>
    if wnTeamsMatch tbl g wnGame then applyPrediction tbl g wnGame :: rest
    else g :: mergeStep tbl wnGame rest

/-- `mergeWarrenNolanPredictions` from `lib/normalizer.ts`: fold the
prediction records over the ESPN game list. -/
def mergeWarrenNolanPredictions (tbl : List (Str × List Str))
    (espnGames wnGames : List Game) : List Game :=
  wnGames.foldl (fun acc wn => mergeStep tbl wn acc) espnGames

end Normalizer

section ModelPredictor

/-- One trained linear model from the coefficient store
(`model-predictor.ts`): intercept, feature weights, and scaler parameters,
keyed by feature name. -/
structure ModelCoefficients where
  intercept : ℚ
  features : List (Str × ℚ)
  scaler_means : List (Str × ℚ)
  scaler_stds : List (Str × ℚ)
  deriving DecidableEq

/-- The optional offense/defense models of one team. -/
structure TeamModels where
  offense : Option ModelCoefficients
  defense : Option ModelCoefficients
  deriving DecidableEq

/-- The coefficient store: a global pair of models and per-team models. -/
structure CoefficientsData where
  global : TeamModels
  teams : List (Str × TeamModels)
  deriving DecidableEq

/-- The requested model kind. -/
inductive ModelType where
  | offense
  | defense
  deriving DecidableEq

/-- Reading one kind out of a `TeamModels` record. -/
def kindField (tm : TeamModels) : ModelType → Option ModelCoefficients
  | .offense => tm.offense
  | .defense => tm.defense

/-- The errors `model-predictor.ts` throws: the not-loaded precondition
violation and the missing-global-model failure, as distinct kinds. -/
inductive PredictorError where
  | notLoaded
  | noModelAvailable (team : Str) (kind : ModelType)
  deriving DecidableEq

/-- First-match association lookup, modelling JS object indexing. -/
def lookupAssoc {α : Type} (l : List (Str × α)) (k : Str) : Option α :=
  match l with
  | [] => none
  | e :: rest => if e.1 = k then some e.2 else lookupAssoc rest k

/-- The model-predictor's own `normalizeTeamName`: lowercase, replace every
character outside `[a-z0-9]` by an underscore, collapse underscore runs, and
strip one leading and one trailing underscore. -/
def mpNormalize (name : Str) : Str :=
  let l := toLowerStr name
  let r := l.map (fun c =>
    if ('a' ≤ c ∧ c ≤ 'z') ∨ ('0' ≤ c ∧ c ≤ '9') then c else '_')
  let s := collapseRuns (fun c => c = '_') '_' r
  let s1 := match s with
    | '_' :: rest => rest
    | other => other
  let s2 := match s1.reverse with
    | '_' :: rest => rest.reverse
    | _ => s1
  s2

/-- `getModelCoefficients` from `model-predictor.ts`, with the module-level
store passed explicitly: `none` models the not-yet-loaded state; a missing
team model of the requested kind falls back to the global model with the
`isGlobal` flag set, and a missing global model is an error. -/
def getModelCoefficients (store : Option CoefficientsData) (team : Str)
    (kind : ModelType) : Except PredictorError (ModelCoefficients × Bool) :=
  match store with
  | none => .error .notLoaded
  | some d =>
    let viaGlobal : Except PredictorError (ModelCoefficients × Bool) :=
      match kindField d.global kind with
      | some g => .ok (g, true)
      | none => .error (.noModelAvailable team kind)
    match lookupAssoc d.teams (mpNormalize team) with
    | some tm =>
      match kindField tm kind with
      | some m => .ok (m, false)
      | none => viaGlobal
    | none => viaGlobal

/-- Default stats used for missing features (`DEFAULT_STATS`). -/
def defaultBa : ℚ := 265/1000
/-- Default slugging. -/
def defaultSlg : ℚ := 390/1000
/-- Default OPS. -/
def defaultOps : ℚ := 730/1000
/-- Default OBP. -/
def defaultObp : ℚ := 340/1000
/-- Default ERA. -/
def defaultEra : ℚ := 45/10
/-- Default WHIP. -/
def defaultWhip : ℚ := 135/100
/-- Default runs scored rolling average. -/
def defaultRunsScored : ℚ := 55/10
/-- Default runs allowed rolling average. -/
def defaultRunsAllowed : ℚ := 55/10
/-- Default recent win rate. -/
def defaultWinRate : ℚ := 1/2

/-- The `GameFeatures` input record of `model-predictor.ts`. -/
structure GameFeatures where
  team : Str
  opponent : Str
  dayOfWeek : ℚ
  isHome : Bool
  isNeutral : Bool
  teamBa : Option ℚ
  teamSlg : Option ℚ
  teamOps : Option ℚ
  teamObp : Option ℚ
  teamEra : Option ℚ
  teamWhip : Option ℚ
  oppBa : Option ℚ
  oppSlg : Option ℚ
  oppOps : Option ℚ
  oppEra : Option ℚ
  oppWhip : Option ℚ
  recentRunsScoredAvg : Option ℚ
  recentRunsAllowedAvg : Option ℚ
  oppRecentRunsScoredAvg : Option ℚ
  oppRecentRunsAllowedAvg : Option ℚ
  recentWinRate : Option ℚ
  oppRecentWinRate : Option ℚ
  deriving DecidableEq

/-- `buildOffenseFeatures` from `model-predictor.ts`. -/
def buildOffenseFeatures (input : GameFeatures) : List (Str × ℚ) :=
  [(("day_of_week").data, input.dayOfWeek),
   (("is_home").data, if input.isHome then 1 else 0),
   (("is_neutral").data, if input.isNeutral then 1 else 0),
   (("team_ba").data, input.teamBa.getD defaultBa),
   (("team_slg").data, input.teamSlg.getD defaultSlg),
   (("team_ops").data, input.teamOps.getD defaultOps),
   (("team_obp").data, input.teamObp.getD defaultObp),
   (("opp_era").data, input.oppEra.getD defaultEra),
   (("opp_whip").data, input.oppWhip.getD defaultWhip),
   (("recent_runs_scored_avg").data,
     input.recentRunsScoredAvg.getD defaultRunsScored),
   (("recent_runs_allowed_avg").data,
     input.recentRunsAllowedAvg.getD defaultRunsAllowed),
   (("opp_recent_runs_allowed_avg").data,
     input.oppRecentRunsAllowedAvg.getD defaultRunsAllowed),
   (("recent_win_rate").data, input.recentWinRate.getD defaultWinRate)]

/-- `buildDefenseFeatures` from `model-predictor.ts`. -/
def buildDefenseFeatures (input : GameFeatures) : List (Str × ℚ) :=
  [(("day_of_week").data, input.dayOfWeek),
   (("is_home").data, if input.isHome then 1 else 0),
   (("is_neutral").data, if input.isNeutral then 1 else 0),
   (("team_era").data, input.teamEra.getD defaultEra),
   (("team_whip").data, input.teamWhip.getD defaultWhip),
   (("opp_ba").data, input.oppBa.getD defaultBa),
   (("opp_slg").data, input.oppSlg.getD defaultSlg),
   (("opp_ops").data, input.oppOps.getD defaultOps),
   (("recent_runs_scored_avg").data,
     input.recentRunsScoredAvg.getD defaultRunsScored),
   (("recent_runs_allowed_avg").data,
     input.recentRunsAllowedAvg.getD defaultRunsAllowed),
   (("opp_recent_runs_scored_avg").data,
     input.oppRecentRunsScoredAvg.getD defaultRunsScored),
   (("recent_win_rate").data, input.recentWinRate.getD defaultWinRate)]

/-- The contribution of one feature inside `predict`: skipped when the model
has no weight for it; the scaler mean defaults to 0 and a missing or zero
std is replaced by 1 (the JS `||` defaults), with the extra guard mapping a
non-positive std to a zero scaled value. -/
def featureTerm (coefficients : ModelCoefficients) (fv : Str × ℚ) : ℚ :=
  match lookupAssoc coefficients.features fv.1 with
  | none => 0
  | some coef =>
    let mean := match lookupAssoc coefficients.scaler_means fv.1 with
      | none => 0
      | some m => m
    let std := match lookupAssoc coefficients.scaler_stds fv.1 with
      | none => 1
      | some s => if s = 0 then 1 else s
    let scaledValue := if 0 < std then (fv.2 - mean) / std else 0
    coef * scaledValue

/-- `predict` from `model-predictor.ts`: intercept plus the weighted
standardized features, floored at zero. -/
def predict (coefficients : ModelCoefficients) (features : List (Str × ℚ)) :
    ℚ :=
  max 0 (features.foldl (fun acc fv => acc + featureTerm coefficients fv)
    coefficients.intercept)

/-- The `ScorePrediction` record of `model-predictor.ts`. -/
structure ScorePrediction where
  team : Str
  predictedRunsScored : ℚ
  predictedRunsAllowed : ℚ
  usedGlobalModel : Bool
  deriving DecidableEq

/-- `predictTeamScore` from `model-predictor.ts`: offense and defense
predictions for one team, rounded to one decimal, with the global-fallback
flag; errors from the coefficient lookups propagate. -/
def predictTeamScore (store : Option CoefficientsData)
    (features : GameFeatures) : Except PredictorError ScorePrediction := do
  let off ← getModelCoefficients store features.team .offense
  let defn ← getModelCoefficients store features.team .defense
  let predictedRunsScored := predict off.1 (buildOffenseFeatures features)
  let predictedRunsAllowed := predict defn.1 (buildDefenseFeatures features)
  return { team := features.team
           predictedRunsScored := round1 predictedRunsScored
           predictedRunsAllowed := round1 predictedRunsAllowed
           usedGlobalModel := off.2 || defn.2 }

end ModelPredictor

section NumericLemmas

theorem jsRound_intCast (m : ℤ) : jsRound (m : ℚ) = m := by
  unfold jsRound
  rw [Int.floor_eq_iff]
  constructor <;> [skip; push_cast] <;> linarith

theorem round1_mono {x y : ℚ} (h : x ≤ y) : round1 x ≤ round1 y := by
  unfold round1
  have hf : jsRound (x * 10) ≤ jsRound (y * 10) := by
    unfold jsRound
    exact Int.floor_le_floor (by linarith)
  have : ((jsRound (x * 10) : ℤ) : ℚ) ≤ ((jsRound (y * 10) : ℤ) : ℚ) := by
    exact_mod_cast hf
  linarith

theorem clamp_comm (v : ℚ) : min 10 (max 1 v) = max 1 (min 10 v) := by
  rcases le_total v 1 with h1 | h1 <;> rcases le_total v 10 with h2 | h2 <;>
    simp [min_def, max_def] <;> split_ifs <;> linarith

theorem getPickLabel_mono {s t : ℚ} (h : s ≤ t) :
    labelRank (getPickLabel s) ≤ labelRank (getPickLabel t) := by
  unfold getPickLabel
  split_ifs <;> simp [labelRank] <;> linarith

end NumericLemmas

/-- C5: `calculateAIScore` equals the clamped one-decimal rounding of
`5 + adjustedEdge·50`, is non-decreasing and bounded in `[1, 10]`, and
`getPickLabel` composed with it is non-decreasing, with the tier boundaries
inclusive on the lower edge (`≥ 8.5` top, `≥ 7` second, `≥ 5` third,
otherwise none). -/
theorem calculateAIScore_clamp_mono_bounded :
    (∀ x : ℚ, calculateAIScore x = max 1 (min 10 (round1 (5 + x * 50))))
    ∧ (∀ x y : ℚ, x ≤ y → calculateAIScore x ≤ calculateAIScore y)
    ∧ (∀ x : ℚ, 1 ≤ calculateAIScore x ∧ calculateAIScore x ≤ 10)
    ∧ (∀ x y : ℚ, x ≤ y →
        labelRank (getPickLabel (calculateAIScore x)) ≤
          labelRank (getPickLabel (calculateAIScore y)))
    ∧ (∀ s : ℚ, (17/2 ≤ s → getPickLabel s = .d1Pick)
        ∧ (7 ≤ s → s < 17/2 → getPickLabel s = .smartBet)
        ∧ (5 ≤ s → s < 7 → getPickLabel s = .leanPick)
        ∧ (s < 5 → getPickLabel s = .passPick)) := by
  have hmono : ∀ x y : ℚ, x ≤ y → calculateAIScore x ≤ calculateAIScore y := by
    intro x y hxy
    unfold calculateAIScore
    exact min_le_min le_rfl (max_le_max le_rfl (round1_mono (by linarith)))
  refine ⟨fun x => clamp_comm _, hmono, ?_, ?_, ?_⟩
  · intro x
    unfold calculateAIScore
    constructor
    · exact le_min (by norm_num) (le_max_left 1 _)
    · exact min_le_left _ _
  · intro x y hxy
    exact getPickLabel_mono (hmono x y hxy)
  · intro s
    unfold getPickLabel
    refine ⟨fun h => by rw [if_pos h], fun h1 h2 => ?_, fun h1 h2 => ?_,
      fun h1 => ?_⟩
    · rw [if_neg (by linarith), if_pos h1]
    · rw [if_neg (by linarith), if_neg (by linarith), if_pos h1]
    · rw [if_neg (by linarith), if_neg (by linarith), if_neg (by linarith)]

/-- C5 witness: monotonicity instantiated at 0 ≤ 1/10. -/
theorem calculateAIScore_clamp_mono_bounded_witness :
    labelRank (getPickLabel (calculateAIScore 0)) ≤
      labelRank (getPickLabel (calculateAIScore (1/10))) :=
  calculateAIScore_clamp_mono_bounded.2.2.2.1 0 (1/10) (by norm_num)

/-- C6 counterexample: at the valid even-money line +100 the round trip
returns -100, which differs from +100 by 200 > 1. -/
theorem probToMoneyline_roundtrip_fails_at_100 :
    probToMoneyline (moneylineToProb 100) = -100
    ∧ ¬ (probToMoneyline (moneylineToProb 100) - 100).natAbs ≤ 1 := by
  constructor <;> norm_num [moneylineToProb, probToMoneyline, jsRound]

/-- C6 amended: for every integer moneyline with m ≤ -100 or m > 100 the
round trip `probToMoneyline (moneylineToProb m)` returns m exactly (hence
within ±1); the remaining valid line m = 100 maps to -100. -/
theorem probToMoneyline_moneylineToProb_exact (m : ℤ)
    (h : m ≤ -100 ∨ 100 < m) :
    probToMoneyline (moneylineToProb (m : ℚ)) = m := by
  rcases h with h | h
  · have hm : ¬ ((m : ℚ) > 0) := by
      push_neg
      exact_mod_cast (by omega : m ≤ 0)
    have habs : |(m : ℚ)| = -(m : ℚ) := abs_of_nonpos (by exact_mod_cast (by omega : m ≤ 0))
    have hden : (0 : ℚ) < -(m : ℚ) + 100 := by
      have : (100 : ℚ) ≤ -(m : ℚ) := by exact_mod_cast (by omega : (100 : ℤ) ≤ -m)
      linarith
    have hcond : (1 : ℚ)/2 ≤ -(m : ℚ) / (-(m : ℚ) + 100) := by
      rw [le_div_iff hden]
      have : (100 : ℚ) ≤ -(m : ℚ) := by exact_mod_cast (by omega : (100 : ℤ) ≤ -m)
      linarith
    rw [moneylineToProb, if_neg hm, habs, probToMoneyline, if_pos hcond]
    have hval : (-100 : ℚ) * (-(m : ℚ) / (-(m : ℚ) + 100))
        / (1 - -(m : ℚ) / (-(m : ℚ) + 100)) = (m : ℚ) := by
      have h1 : (1 : ℚ) - -(m : ℚ) / (-(m : ℚ) + 100) = 100 / (-(m : ℚ) + 100) := by
        field_simp
      rw [h1]
      field_simp
    rw [hval, jsRound_intCast]
  · have hm : ((m : ℚ)) > 0 := by
      have : (0 : ℤ) < m := by omega
      exact_mod_cast this
    have hden : (0 : ℚ) < (m : ℚ) + 100 := by linarith
    have hcond : ¬ ((1 : ℚ)/2 ≤ 100 / ((m : ℚ) + 100)) := by
      rw [not_le, div_lt_iff hden]
      have : (100 : ℚ) < (m : ℚ) := by exact_mod_cast h
      linarith
    rw [moneylineToProb, if_pos hm, probToMoneyline, if_neg hcond]
    have hval : (100 : ℚ) * (1 - 100 / ((m : ℚ) + 100)) / (100 / ((m : ℚ) + 100))
        = (m : ℚ) := by
      have h1 : (1 : ℚ) - 100 / ((m : ℚ) + 100) = (m : ℚ) / ((m : ℚ) + 100) := by
        field_simp
      rw [h1]
      field_simp
    rw [hval, jsRound_intCast]

/-- C6 witness: the round trip at -110 returns -110. -/
theorem probToMoneyline_moneylineToProb_exact_witness :
    probToMoneyline (moneylineToProb ((-110 : ℤ) : ℚ)) = -110 :=
  probToMoneyline_moneylineToProb_exact (-110) (by norm_num)

/-- C7 counterexample: -100 and -200 have the same sign with
|-100| < |-200|, yet `moneylineToProb (-100) = 1/2` is smaller than
`moneylineToProb (-200) = 2/3`, so the conversion is not decreasing in the
absolute moneyline on the negative side. -/
theorem moneylineToProb_not_decreasing_negative :
    moneylineToProb (-100) = 1/2 ∧ moneylineToProb (-200) = 2/3
    ∧ |(-100 : ℚ)| < |(-200 : ℚ)|
    ∧ ¬ (moneylineToProb (-200) < moneylineToProb (-100)) := by
  refine ⟨?_, ?_, by norm_num, ?_⟩ <;> norm_num [moneylineToProb]

/-- C7 amended: `moneylineToProb` is strictly decreasing in the moneyline's
absolute value on positive lines and strictly increasing in it on negative
lines, and both ±100 map to 1/2. -/
theorem moneylineToProb_monotone_spec :
    (∀ m1 m2 : ℚ, 0 < m1 → m1 < m2 → moneylineToProb m2 < moneylineToProb m1)
    ∧ (∀ m1 m2 : ℚ, m1 < 0 → m2 < 0 → |m1| < |m2| →
        moneylineToProb m1 < moneylineToProb m2)
    ∧ moneylineToProb 100 = 1/2 ∧ moneylineToProb (-100) = 1/2 := by
  refine ⟨?_, ?_, by norm_num [moneylineToProb], by norm_num [moneylineToProb]⟩
  · intro m1 m2 h1 h12
    have e1 : moneylineToProb m1 = 100 / (m1 + 100) := by
      rw [moneylineToProb, if_pos h1]
    have e2 : moneylineToProb m2 = 100 / (m2 + 100) := by
      rw [moneylineToProb, if_pos (by linarith : m2 > 0)]
    rw [e1, e2]
    exact div_lt_div_of_pos_left (by norm_num) (by linarith) (by linarith)
  · intro m1 m2 h1 h2 habs
    have e1 : moneylineToProb m1 = -m1 / (-m1 + 100) := by
      rw [moneylineToProb, if_neg (by linarith : ¬ m1 > 0), abs_of_neg h1]
    have e2 : moneylineToProb m2 = -m2 / (-m2 + 100) := by
      rw [moneylineToProb, if_neg (by linarith : ¬ m2 > 0), abs_of_neg h2]
    rw [abs_of_neg h1, abs_of_neg h2] at habs
    rw [e1, e2, div_lt_div_iff (by linarith) (by linarith)]
    nlinarith

/-- C7 witness: both monotonicity parts at ±(100, 200). -/
theorem moneylineToProb_monotone_spec_witness :
    moneylineToProb 200 < moneylineToProb 100
    ∧ moneylineToProb (-100) < moneylineToProb (-200) :=
  ⟨moneylineToProb_monotone_spec.1 100 200 (by norm_num) (by norm_num),
   moneylineToProb_monotone_spec.2.1 (-100) (-200) (by norm_num) (by norm_num)
     (by norm_num)⟩

section Fixtures

/-- A scheduled LSU at Alabama game without a prediction. -/
def gFixLsu : Game :=
  { id := "g1".data
    date := "2026-04-01".data
    startTime := "18:00".data
    teamA := "lsu".data
    teamB := "alabama".data
    teamAHome := false
    teamBHome := true
    venueType := .homeB
    modelProbA := 1/2
    modelProbB := 1/2
    hasPrediction := false
    predictionSource := "none".data
    venue := none
    broadcast := none
    teamARank := none
    teamBRank := none
    espnGameId := none }

/-- The same matchup with an external prediction attached. -/
def gFixLsuPred : Game :=
  { gFixLsu with
      modelProbA := 55/100
      modelProbB := 45/100
      hasPrediction := true
      predictionSource := ("warren_nolan").data }

/-- A moneyline entry on LSU, lowercase team key. -/
def eFixLsu : OddsEntry :=
  { gameId := "g1".data
    homeTeam := "alabama".data
    awayTeam := "lsu".data
    sportsbook := "draftkings".data
    team := "lsu".data
    moneyline := 130 }

/-- A second LSU entry with a better moneyline. -/
def eFixLsu2 : OddsEntry :=
  { eFixLsu with sportsbook := "fanduel".data, moneyline := 140 }

/-- An LSU entry whose team name needs the alias table to resolve. -/
def eFixLsuTigers : OddsEntry :=
  { eFixLsu with team := ("LSU Tigers").data, moneyline := 120 }

end Fixtures

/-- C2: `matchGamesWithOdds` emits exactly one pair per input game in input
order (so the output count equals the game count and no game is dropped),
and a pair's odds list is empty exactly when no entry matches its game. -/
theorem matchGamesWithOdds_preserves_games :
    ∀ (tbl : List (Str × List Str)) (games : List Game)
      (entries : List OddsEntry),
    (matchGamesWithOdds tbl games entries).length = games.length
    ∧ (matchGamesWithOdds tbl games entries).map Prod.fst = games
    ∧ ∀ p ∈ matchGamesWithOdds tbl games entries,
        (p.2 = [] ↔ ∀ e ∈ entries, ¬ (oddsTeamsMatch tbl p.1 e = true)) := by
  intro tbl games entries
  refine ⟨by simp [matchGamesWithOdds], ?_, ?_⟩
  · simp only [matchGamesWithOdds, List.map_map]
    exact List.map_id'' (fun _ => rfl) games
  intro p hp
  rw [matchGamesWithOdds, List.mem_map] at hp
  obtain ⟨g, _, rfl⟩ := hp
  simp [List.filter_eq_nil_iff]

/-- C2 witness: with no odds entries the only pair is the game with an
empty odds list. -/
theorem matchGamesWithOdds_preserves_games_witness :
    ((gFixLsu, ([] : List OddsEntry)).2 = []
      ↔ ∀ e ∈ ([] : List OddsEntry),
          ¬ (oddsTeamsMatch teamMappings (gFixLsu, ([] : List OddsEntry)).1 e
            = true)) :=
  (matchGamesWithOdds_preserves_games teamMappings [gFixLsu] []).2.2
    (gFixLsu, []) (by simp [matchGamesWithOdds])

/-- C3 counterexample: a game without a prediction still gets a `BetEdge`
from `calculateGameEdges` when odds match one of its teams — the function
never consults `hasPrediction`. -/
theorem calculateGameEdges_ignores_hasPrediction :
    gFixLsu.hasPrediction = false
    ∧ (calculateGameEdges gFixLsu [eFixLsu]).length = 1 := by
  constructor <;> rfl

/-- C3 amended: `calculateGameEdges` produces a `BetEdge` for a team name
exactly when it is one of the game's two teams and at least one odds entry's
lowercased team name equals it, regardless of the game's `hasPrediction`
flag (the prediction requirement is enforced by the page pipeline, which
only calls `calculateGameEdges` for games with predictions). -/
theorem calculateGameEdges_edge_iff_group :
    ∀ (game : Game) (entries : List OddsEntry) (t : Str),
    (∃ ed ∈ calculateGameEdges game entries, ed.team = t)
    ↔ ((t = game.teamA ∨ t = game.teamB) ∧ teamGroup entries t ≠ []) := by
  intro game entries t
  constructor
  · rintro ⟨ed, hmem, rfl⟩
    rw [calculateGameEdges, List.mem_filterMap] at hmem
    obtain ⟨t', ht', hf⟩ := hmem
    rcases hg : teamGroup entries t' with _ | ⟨hd, rest⟩
    · rw [edgeForTeam.eq_def, hg] at hf
      exact absurd hf (by simp)
    · rw [edgeForTeam.eq_def, hg] at hf
      obtain rfl := Option.some.inj hf
      constructor
      · simpa using ht'
      · rw [hg]
        simp
  · rintro ⟨hab, hne⟩
    rcases hg : teamGroup entries t with _ | ⟨hd, rest⟩
    · exact absurd hg hne
    have hsome : ∃ ed, edgeForTeam game entries t = some ed ∧ ed.team = t := by
      rw [edgeForTeam.eq_def, hg]
      exact ⟨_, rfl, rfl⟩
    obtain ⟨ed, hed, hteam⟩ := hsome
    refine ⟨ed, ?_, hteam⟩
    rw [calculateGameEdges, List.mem_filterMap]
    refine ⟨t, ?_, hed⟩
    rcases hab with h | h <;> simp [h]

/-- C3 witness for the amended statement: the LSU edge exists exactly
because an entry carries the lowercase team name. -/
theorem calculateGameEdges_edge_iff_group_witness :
    (∃ ed ∈ calculateGameEdges gFixLsuPred [eFixLsu], ed.team = "lsu".data)
    ↔ (("lsu".data = gFixLsuPred.teamA ∨ "lsu".data = gFixLsuPred.teamB)
      ∧ teamGroup [eFixLsu] "lsu".data ≠ []) :=
  calculateGameEdges_edge_iff_group gFixLsuPred [eFixLsu] "lsu".data

/-- The `reduce` of `calculateGameEdges` selects the entry of the group with
the maximal moneyline, and on ties the earliest occurrence: every entry
before it is strictly smaller and every entry after it is no larger. -/
theorem pickBest_first_max (rest : List OddsEntry) (hd : OddsEntry) :
    ∃ pre post, hd :: rest = pre ++ pickBest hd rest :: post
      ∧ (∀ e ∈ pre, e.moneyline < (pickBest hd rest).moneyline)
      ∧ (∀ e ∈ post, e.moneyline ≤ (pickBest hd rest).moneyline) := by
  induction rest generalizing hd with
  | nil => exact ⟨[], [], rfl, by simp, by simp⟩
  | cons e t ih =>
    by_cases hlt : hd.moneyline < e.moneyline
    · have hb : pickBest hd (e :: t) = pickBest e t := by
        simp only [pickBest, if_pos hlt]
      obtain ⟨pre, post, heq, hpre, hpost⟩ := ih e
      have hfirst : hd.moneyline < (pickBest e t).moneyline := by
        rcases pre with _ | ⟨p, pre'⟩
        · simp only [List.nil_append] at heq
          have : e = pickBest e t := (List.cons.injEq _ _ _ _ ▸ heq).1
          rw [← this]
          exact hlt
        · have : e = p := by
            simpa using congrArg (fun l => l.head?) heq
          subst this
          exact hlt.trans (hpre e (by simp))
      refine ⟨hd :: pre, post, ?_, ?_, by rw [hb]; exact hpost⟩
      · rw [hb, List.cons_append, ← heq]
      · intro x hx
        rw [hb]
        rcases List.mem_cons.mp hx with rfl | hx
        · exact hfirst
        · exact hpre x hx
    · have hb : pickBest hd (e :: t) = pickBest hd t := by
        simp only [pickBest, if_neg hlt]
      obtain ⟨pre, post, heq, hpre, hpost⟩ := ih hd
      rcases pre with _ | ⟨p, pre'⟩
      · simp only [List.nil_append] at heq
        have hhd : hd = pickBest hd t := (List.cons.injEq _ _ _ _ ▸ heq).1
        have hpost' : t = post := (List.cons.injEq _ _ _ _ ▸ heq).2
        refine ⟨[], e :: t, ?_, by simp, ?_⟩
        · rw [hb, ← hhd, List.nil_append]
        · intro x hx
          rw [hb, ← hhd]
          rcases List.mem_cons.mp hx with rfl | hx
          · exact not_lt.mp hlt
          · have := hpost x (hpost' ▸ hx)
            rw [← hhd] at this
            exact this
      · have hp : hd = p := by
          simpa using congrArg (fun l => l.head?) heq
        have ht : t = pre' ++ pickBest hd t :: post := by
          simpa using congrArg (fun l => l.tail) heq
        subst hp
        refine ⟨hd :: e :: pre', post, ?_, ?_, by rw [hb]; exact hpost⟩
        · rw [hb, List.cons_append, List.cons_append, ← ht]
        · intro x hx
          rw [hb]
          have hhd_lt : hd.moneyline < (pickBest hd t).moneyline :=
            hpre hd (by simp)
          rcases List.mem_cons.mp hx with rfl | hx
          · exact hhd_lt
          rcases List.mem_cons.mp hx with rfl | hx
          · exact lt_of_le_of_lt (not_lt.mp hlt) hhd_lt
          · exact hpre x (by simp [hx])

/-- The per-team branch of `calculateGameEdges` on a non-empty group:
the emitted `BetEdge` is built from the `reduce`-selected best entry. -/
theorem edgeForTeam_eq_some (game : Game) (entries : List OddsEntry)
    (t : Str) (hd : OddsEntry) (rest : List OddsEntry)
    (hg : teamGroup entries t = hd :: rest) :
    ∃ ed, edgeForTeam game entries t = some ed
      ∧ ed.team = t
      ∧ ed.moneyline = (pickBest hd rest).moneyline
      ∧ ed.sportsbook = (pickBest hd rest).sportsbook
      ∧ ed.modelProb
          = (if t = game.teamA then game.modelProbA else game.modelProbB)
      ∧ ed.impliedProb = moneylineToProb ((pickBest hd rest).moneyline : ℚ)
      ∧ ed.rawEdge = ed.modelProb - ed.impliedProb
      ∧ ed.aiScore = calculateAIScore ed.adjustedEdge := by
  rw [edgeForTeam.eq_def, hg]
  exact ⟨_, rfl, rfl, rfl, rfl, rfl, rfl, rfl, rfl⟩

/-- C4 counterexample: an entry whose team name resolves to the game's
`teamA` through `normalizeTeamName` (alias table) but differs from it after
mere lowercasing produces no `BetEdge`: `calculateGameEdges` groups odds by
`entry.team.toLowerCase()`, not by the normalized team name. -/
theorem calculateGameEdges_not_normalized_grouping :
    normalizeTeamName teamMappings eFixLsuTigers.team = gFixLsuPred.teamA
    ∧ gFixLsuPred.hasPrediction = true
    ∧ calculateGameEdges gFixLsuPred [eFixLsuTigers] = [] := by
  refine ⟨by decide, rfl, rfl⟩

/-- C4 amended: `calculateGameEdges` groups the entries by their lowercased
team name; for each of the game's two teams with a non-empty group it emits
one `BetEdge` whose moneyline and sportsbook come from the single group
entry with the highest moneyline (ties resolved by first occurrence in
input order), with the edge computed from that team's model probability. -/
theorem calculateGameEdges_best_moneyline :
    ∀ (game : Game) (entries : List OddsEntry) (t : Str),
    (t = game.teamA ∨ t = game.teamB) →
    ∀ hd rest, teamGroup entries t = hd :: rest →
    ∃ ed pre post,
      ed ∈ calculateGameEdges game entries ∧ ed.team = t
      ∧ teamGroup entries t = pre ++ pickBest hd rest :: post
      ∧ (∀ e ∈ pre, e.moneyline < (pickBest hd rest).moneyline)
      ∧ (∀ e ∈ post, e.moneyline ≤ (pickBest hd rest).moneyline)
      ∧ ed.moneyline = (pickBest hd rest).moneyline
      ∧ ed.sportsbook = (pickBest hd rest).sportsbook
      ∧ ed.modelProb
          = (if t = game.teamA then game.modelProbA else game.modelProbB)
      ∧ ed.impliedProb = moneylineToProb ((pickBest hd rest).moneyline : ℚ)
      ∧ ed.rawEdge = ed.modelProb - ed.impliedProb
      ∧ ed.aiScore = calculateAIScore ed.adjustedEdge := by
  intro game entries t hab hd rest hg
  obtain ⟨ed, hed, h1, h2, h3, h4, h5, h6, h7⟩ :=
    edgeForTeam_eq_some game entries t hd rest hg
  obtain ⟨pre, post, heq, hpre, hpost⟩ := pickBest_first_max rest hd
  refine ⟨ed, pre, post, ?_, h1, ?_, hpre, hpost, h2, h3, h4, h5, h6, h7⟩
  · rw [calculateGameEdges, List.mem_filterMap]
    refine ⟨t, ?_, hed⟩
    rcases hab with h | h <;> simp [h]
  · rw [hg, heq]

/-- C4 witness: with two LSU entries at +130 and +140 the +140 entry is
selected and its sportsbook reported. -/
theorem calculateGameEdges_best_moneyline_witness :
    ∃ ed pre post,
      ed ∈ calculateGameEdges gFixLsuPred [eFixLsu, eFixLsu2]
      ∧ ed.team = "lsu".data
      ∧ teamGroup [eFixLsu, eFixLsu2] "lsu".data
          = pre ++ pickBest eFixLsu [eFixLsu2] :: post
      ∧ (∀ e ∈ pre, e.moneyline < (pickBest eFixLsu [eFixLsu2]).moneyline)
      ∧ (∀ e ∈ post, e.moneyline ≤ (pickBest eFixLsu [eFixLsu2]).moneyline)
      ∧ ed.moneyline = (pickBest eFixLsu [eFixLsu2]).moneyline
      ∧ ed.sportsbook = (pickBest eFixLsu [eFixLsu2]).sportsbook
      ∧ ed.modelProb = (if "lsu".data = gFixLsuPred.teamA
          then gFixLsuPred.modelProbA else gFixLsuPred.modelProbB)
      ∧ ed.impliedProb
          = moneylineToProb ((pickBest eFixLsu [eFixLsu2]).moneyline : ℚ)
      ∧ ed.rawEdge = ed.modelProb - ed.impliedProb
      ∧ ed.aiScore = calculateAIScore ed.adjustedEdge :=
  calculateGameEdges_best_moneyline gFixLsuPred [eFixLsu, eFixLsu2]
    "lsu".data (Or.inl rfl) eFixLsu [eFixLsu2] (by decide)

section PredictorFixtures

/-- A trivial global offense model used in the C9 witness. -/
def gFixGlobalOffense : ModelCoefficients :=
  { intercept := 5, features := [], scaler_means := [], scaler_stds := [] }

/-- A coefficient store holding only a global offense model and no
team-specific models, as in Scenario E for team "rice". -/
def dFixStore : CoefficientsData :=
  { global := { offense := some gFixGlobalOffense, defense := none }
    teams := [] }

end PredictorFixtures

/-- C9: requesting coefficients before the store is loaded yields the
`notLoaded` error (also through `predictTeamScore`), an error kind distinct
from the missing-model error; with a loaded store, a team without a
team-specific model of the requested kind receives the global model of that
kind with the `usedGlobal` flag set, and a missing global model of that kind
is the fatal `noModelAvailable` error with no further fallback. -/
theorem getModelCoefficients_fallback_spec :
    (∀ (team : Str) (kind : ModelType),
      getModelCoefficients none team kind = .error .notLoaded)
    ∧ (∀ features : GameFeatures,
        predictTeamScore none features = .error .notLoaded)
    ∧ (∀ (team : Str) (kind : ModelType),
        PredictorError.notLoaded ≠ PredictorError.noModelAvailable team kind)
    ∧ (∀ (d : CoefficientsData) (team : Str) (kind : ModelType),
        (∀ tm, lookupAssoc d.teams (mpNormalize team) = some tm →
          kindField tm kind = none) →
        (∀ g, kindField d.global kind = some g →
          getModelCoefficients (some d) team kind = .ok (g, true))
        ∧ (kindField d.global kind = none →
          getModelCoefficients (some d) team kind
            = .error (.noModelAvailable team kind))) := by
  refine ⟨fun _ _ => rfl, fun _ => rfl,
    fun _ _ h => PredictorError.noConfusion h, ?_⟩
  intro d team kind hteam
  constructor
  · intro g hg
    rw [getModelCoefficients.eq_def]
    rcases hl : lookupAssoc d.teams (mpNormalize team) with _ | tm
    · simp only [hl, hg]
    · simp only [hl, hteam tm hl, hg]
  · intro hg
    rw [getModelCoefficients.eq_def]
    rcases hl : lookupAssoc d.teams (mpNormalize team) with _ | tm
    · simp only [hl, hg]
    · simp only [hl, hteam tm hl, hg]

/-- C9 witness: Scenario E — "rice" has no team-specific model, so the
offense lookup returns the global offense model with the global flag. -/
theorem getModelCoefficients_fallback_spec_witness :
    getModelCoefficients (some dFixStore) ("rice").data ModelType.offense
      = .ok (gFixGlobalOffense, true) :=
  (getModelCoefficients_fallback_spec.2.2.2 dFixStore ("rice").data
    ModelType.offense (fun tm h => by simp [dFixStore, lookupAssoc] at h)).1
    gFixGlobalOffense rfl

section MergeSpec

/-- The normalized unordered team pair of a prediction record equals that of
a schedule game: the pairs agree either in the same or in reversed order. -/
def normPairEq (tbl : List (Str × List Str)) (g wn : Game) : Prop :=
  (normalizeTeamName tbl g.teamA = normalizeTeamName tbl wn.teamA
    ∧ normalizeTeamName tbl g.teamB = normalizeTeamName tbl wn.teamB)
  ∨ (normalizeTeamName tbl g.teamA = normalizeTeamName tbl wn.teamB
    ∧ normalizeTeamName tbl g.teamB = normalizeTeamName tbl wn.teamA)

instance normPairEq.decidable (tbl : List (Str × List Str)) (g wn : Game) :
    Decidable (normPairEq tbl g wn) := by
  unfold normPairEq
  infer_instance

theorem wnTeamsMatch_iff_normPairEq (tbl : List (Str × List Str))
    (g wn : Game) : wnTeamsMatch tbl g wn = true ↔ normPairEq tbl g wn := by
  simp [wnTeamsMatch, normPairEq]

theorem mergeStep_length_le (tbl : List (Str × List Str)) (wn : Game) :
    ∀ gs : List Game, gs.length ≤ (mergeStep tbl wn gs).length := by
  intro gs
  induction gs with
  | nil => simp [mergeStep]
  | cons g rest ih =>
    rw [mergeStep]
    split
    · simp
    · simpa using ih

end MergeSpec

/-- C1: the Warren Nolan merge never drops a schedule game (the output is at
least as long as the input list); the normalized unordered pair test is
exactly equality of the unordered normalized team-name pairs; a prediction
record matching no game is appended as a standalone game with
`hasPrediction = true`; and a record whose pair matches a game (the first
such game) rewrites that game in place with `hasPrediction = true`, copying
the probabilities directly when the record's first team normalizes to the
game's `teamA` and swapping them when it normalizes to the game's `teamB`. -/
theorem mergeWarrenNolan_spec (tbl : List (Str × List Str)) :
    (∀ g wn : Game, normPairEq tbl g wn ↔
      ({normalizeTeamName tbl g.teamA, normalizeTeamName tbl g.teamB} :
        Set Str)
      = {normalizeTeamName tbl wn.teamA, normalizeTeamName tbl wn.teamB})
    ∧ (∀ espnGames wnGames : List Game,
        espnGames.length
          ≤ (mergeWarrenNolanPredictions tbl espnGames wnGames).length)
    ∧ (∀ (gs : List Game) (wn : Game), (∀ g ∈ gs, ¬ normPairEq tbl g wn) →
        mergeStep tbl wn gs = gs ++ [standaloneWnGame wn]
        ∧ (standaloneWnGame wn).hasPrediction = true)
    ∧ (∀ (pre : List Game) (g : Game) (post : List Game) (wn : Game),
        (∀ g' ∈ pre, ¬ normPairEq tbl g' wn) → normPairEq tbl g wn →
        mergeStep tbl wn (pre ++ g :: post)
          = pre ++ applyPrediction tbl g wn :: post
        ∧ (applyPrediction tbl g wn).hasPrediction = true
        ∧ (applyPrediction tbl g wn).teamA = g.teamA
        ∧ (applyPrediction tbl g wn).teamB = g.teamB
        ∧ (normalizeTeamName tbl wn.teamA = normalizeTeamName tbl g.teamA →
            (applyPrediction tbl g wn).modelProbA = wn.modelProbA
            ∧ (applyPrediction tbl g wn).modelProbB = wn.modelProbB)
        ∧ (normalizeTeamName tbl wn.teamA ≠ normalizeTeamName tbl g.teamA →
            normalizeTeamName tbl wn.teamA = normalizeTeamName tbl g.teamB
            ∧ (applyPrediction tbl g wn).modelProbA = wn.modelProbB
            ∧ (applyPrediction tbl g wn).modelProbB = wn.modelProbA)) := by
  refine ⟨?_, ?_, ?_, ?_⟩
  · intro g wn
    rw [Set.pair_eq_pair_iff]
    rfl
  · intro espnGames wnGames
    unfold mergeWarrenNolanPredictions
    induction wnGames generalizing espnGames with
    | nil => simp
    | cons wn rest ih =>
      calc espnGames.length ≤ (mergeStep tbl wn espnGames).length :=
            mergeStep_length_le tbl wn espnGames
        _ ≤ _ := ih (mergeStep tbl wn espnGames)
  · intro gs wn hno
    refine ⟨?_, rfl⟩
    induction gs with
    | nil => rfl
    | cons g rest ih =>
      rw [mergeStep, if_neg (fun h => hno g (List.mem_cons_self g rest)
        ((wnTeamsMatch_iff_normPairEq tbl g wn).mp h))]
      rw [ih (fun g' hg' => hno g' (List.mem_cons_of_mem g hg'))]
      rfl
  · intro pre g post wn hpre hmatch
    have hm : wnTeamsMatch tbl g wn = true :=
      (wnTeamsMatch_iff_normPairEq tbl g wn).mpr hmatch
    refine ⟨?_, ?_, ?_, ?_, ?_, ?_⟩
    · induction pre with
      | nil => rw [List.nil_append, mergeStep, if_pos hm, List.nil_append]
      | cons p pre' ih =>
        rw [List.cons_append, mergeStep,
          if_neg (fun h => hpre p (List.mem_cons_self p pre')
            ((wnTeamsMatch_iff_normPairEq tbl p wn).mp h)),
          ih (fun g' hg' => hpre g' (List.mem_cons_of_mem p hg')),
          List.cons_append]
    · unfold applyPrediction
      split <;> rfl
    · unfold applyPrediction
      split <;> rfl
    · unfold applyPrediction
      split <;> rfl
    · intro h
      unfold applyPrediction
      rw [if_pos h.symm]
      exact ⟨rfl, rfl⟩
    · intro hne
      have hgb : normalizeTeamName tbl wn.teamA = normalizeTeamName tbl g.teamB := by
        rcases hmatch with ⟨h1, _⟩ | ⟨_, h2⟩
        · exact absurd h1.symm hne
        · exact h2.symm
      refine ⟨hgb, ?_, ?_⟩ <;>
        [rw [applyPrediction, if_neg (fun hc => hne hc.symm)];
         rw [applyPrediction, if_neg (fun hc => hne hc.symm)]]

/-- Scenario D schedule game: away "texas_a&m" as `teamA`, home "alabama"
as `teamB`. -/
def gFixScenD : Game :=
  { id := "d1".data
    date := "2026-04-02".data
    startTime := "19:00".data
    teamA := ("texas_a&m").data
    teamB := "alabama".data
    teamAHome := false
    teamBHome := true
    venueType := .homeB
    modelProbA := 1/2
    modelProbB := 1/2
    hasPrediction := false
    predictionSource := "none".data
    venue := none
    broadcast := none
    teamARank := none
    teamBRank := none
    espnGameId := none }

/-- Scenario D prediction record: teamA "alabama", teamB "texas_a&m",
probability 0.60 for the second-listed team. -/
def wnFixScenD : Game :=
  { gFixScenD with
      id := "wn1".data
      teamA := "alabama".data
      teamB := ("texas_a&m").data
      modelProbA := 2/5
      modelProbB := 3/5
      hasPrediction := true
      predictionSource := ("warren_nolan").data }

/-- C1 witness: Scenario D — reversed team order is detected and the
probabilities are swapped, giving texas_a&m 0.60 and alabama 0.40. -/
theorem mergeWarrenNolan_spec_witness :
    mergeStep [] wnFixScenD [gFixScenD]
      = [applyPrediction [] gFixScenD wnFixScenD]
    ∧ (applyPrediction [] gFixScenD wnFixScenD).hasPrediction = true
    ∧ normalizeTeamName [] wnFixScenD.teamA
        = normalizeTeamName [] gFixScenD.teamB
    ∧ (applyPrediction [] gFixScenD wnFixScenD).modelProbA
        = wnFixScenD.modelProbB
    ∧ (applyPrediction [] gFixScenD wnFixScenD).modelProbB
        = wnFixScenD.modelProbA := by
  obtain ⟨h1, h2, _, _, _, h6⟩ :=
    (mergeWarrenNolan_spec []).2.2.2 [] gFixScenD [] wnFixScenD
      (by simp) (by decide)
  obtain ⟨hgb, hpa, hpb⟩ := h6 (by decide)
  exact ⟨h1, h2, hgb, hpa, hpb⟩

section StringLemmas

theorem char_toNat_ofNat {n : ℕ} (h : n < 55296) : (Char.ofNat n).toNat = n := by
  rw [Char.ofNat, dif_pos (Or.inl h)]
  simp [Char.ofNatAux, Char.toNat, UInt32.toNat]

theorem char_toLower_toNat {c : Char} (h : 65 ≤ c.toNat ∧ c.toNat ≤ 90) :
    (Char.toLower c).toNat = c.toNat + 32 := by
  unfold Char.toLower
  rw [if_pos h]
  exact char_toNat_ofNat (by omega)

theorem char_toLower_eq_self {d : Char}
    (h : ¬ (65 ≤ d.toNat ∧ d.toNat ≤ 90)) : d.toLower = d := by
  unfold Char.toLower
  rw [if_neg h]

theorem char_toLower_idem (c : Char) : c.toLower.toLower = c.toLower := by
  by_cases h : 65 ≤ c.toNat ∧ c.toNat ≤ 90
  · have e := char_toLower_toNat h
    exact char_toLower_eq_self (by omega)
  · rw [char_toLower_eq_self h, char_toLower_eq_self h]

theorem mem_collapseRunsAux {p : Char → Bool} {sub : Char} :
    ∀ (s : Str) (b : Bool) (c : Char), c ∈ collapseRunsAux p sub b s →
      c = sub ∨ (c ∈ s ∧ p c = false) := by
  intro s
  induction s with
  | nil =>
    intro b c hc
    simp [collapseRunsAux] at hc
  | cons d rest ih =>
    intro b c hc
    simp only [collapseRunsAux] at hc
    by_cases hp : p d
    · rw [if_pos hp] at hc
      cases b with
      | true =>
        rcases ih true c hc with h | ⟨h1, h2⟩
        · exact Or.inl h
        · exact Or.inr ⟨List.mem_cons_of_mem d h1, h2⟩
      | false =>
        rcases List.mem_cons.mp hc with rfl | hc
        · exact Or.inl rfl
        · rcases ih true c hc with h | ⟨h1, h2⟩
          · exact Or.inl h
          · exact Or.inr ⟨List.mem_cons_of_mem d h1, h2⟩
    · rw [if_neg hp] at hc
      rcases List.mem_cons.mp hc with rfl | hc
      · exact Or.inr ⟨List.mem_cons_self c rest, by simpa using hp⟩
      · rcases ih false c hc with h | ⟨h1, h2⟩
        · exact Or.inl h
        · exact Or.inr ⟨List.mem_cons_of_mem d h1, h2⟩

theorem collapseRunsAux_eq_self {p : Char → Bool} {sub : Char} :
    ∀ s : Str, (∀ c ∈ s, p c = false) →
      collapseRunsAux p sub false s = s := by
  intro s
  induction s with
  | nil => intro _; rfl
  | cons d rest ih =>
    intro h
    simp only [collapseRunsAux]
    rw [if_neg (by simp [h d (List.mem_cons_self d rest)]),
      ih (fun c hc => h c (List.mem_cons_of_mem d hc))]

theorem sub_mem_collapseRunsAux {p : Char → Bool} {sub : Char} :
    ∀ s : Str, (∃ c ∈ s, p c = true) →
      sub ∈ collapseRunsAux p sub false s := by
  intro s
  induction s with
  | nil => rintro ⟨c, hc, _⟩; simp at hc
  | cons d rest ih =>
    rintro ⟨c, hc, hpc⟩
    simp only [collapseRunsAux]
    by_cases hp : p d
    · rw [if_pos hp]
      exact List.mem_cons_self sub _
    · rw [if_neg hp]
      rcases List.mem_cons.mp hc with rfl | hc
      · exact absurd hpc (by simpa using hp)
      · exact List.mem_cons_of_mem d (ih ⟨c, hc, hpc⟩)

theorem mem_trimStr {s : Str} {c : Char} (hc : c ∈ trimStr s) : c ∈ s := by
  unfold trimStr at hc
  rw [List.mem_reverse] at hc
  have h1 := (List.dropWhile_sublist (l := (s.dropWhile Char.isWhitespace).reverse)
    Char.isWhitespace).subset hc
  rw [List.mem_reverse] at h1
  exact (List.dropWhile_sublist Char.isWhitespace).subset h1

theorem trimStr_eq_self {s : Str}
    (h : ∀ c ∈ s, Char.isWhitespace c = false) : trimStr s = s := by
  have h1 : ∀ l : Str, (∀ c ∈ l, Char.isWhitespace c = false) →
      l.dropWhile Char.isWhitespace = l := by
    intro l hl
    cases l with
    | nil => rfl
    | cons c rest =>
      exact List.dropWhile_cons_of_neg
        (by simp [hl c (List.mem_cons_self c rest)])
  unfold trimStr
  rw [h1 s h, h1 _ (fun c hc => h c (List.mem_reverse.mp hc)),
    List.reverse_reverse]

theorem toLowerStr_fixed {s : Str} (h : ∀ c ∈ s, c.toLower = c) :
    toLowerStr s = s := by
  unfold toLowerStr
  induction s with
  | nil => rfl
  | cons c rest ih =>
    rw [List.map_cons, h c (List.mem_cons_self c rest),
      ih (fun d hd => h d (List.mem_cons_of_mem c hd))]

theorem mem_toLowerStr_fixed {s : Str} {c : Char} (hc : c ∈ toLowerStr s) :
    c.toLower = c := by
  rw [toLowerStr, List.mem_map] at hc
  obtain ⟨d, _, rfl⟩ := hc
  exact char_toLower_idem d

end StringLemmas

/-- C8: with the configured alias table, `normalizeTeamName` is a total
function of its input string, is idempotent, and resolves Scenario C:
"LSU Tigers" and "lsu" both normalize to the canonical "lsu". -/
theorem normalizeTeamName_idempotent :
    (∀ x : Str, normalizeTeamName teamMappings
        (normalizeTeamName teamMappings x) = normalizeTeamName teamMappings x)
    ∧ normalizeTeamName teamMappings ("LSU Tigers").data = "lsu".data
    ∧ normalizeTeamName teamMappings "lsu".data = "lsu".data := by
  refine ⟨?_, by decide, by decide⟩
  intro x
  rcases hl : aliasLookup (trimStr (toLowerStr x)) teamMappings with _ | c
  · -- fallback branch: the result is the collapsed trimmed lowercase string
    have hinner : normalizeTeamName teamMappings x
        = collapseWs (trimStr (toLowerStr x)) := by
      rw [normalizeTeamName, hl]
    set z := trimStr (toLowerStr x) with hzdef
    set y := collapseWs z with hydef
    have hy_mem : ∀ c ∈ y, c = '_' ∨ (c ∈ z ∧ Char.isWhitespace c = false) :=
      fun c hc => mem_collapseRunsAux z false c hc
    have hy_nws : ∀ c ∈ y, Char.isWhitespace c = false := by
      intro c hc
      rcases hy_mem c hc with rfl | ⟨_, h⟩
      · decide
      · exact h
    have hy_lower : ∀ c ∈ y, c.toLower = c := by
      intro c hc
      rcases hy_mem c hc with rfl | ⟨h, _⟩
      · decide
      · exact mem_toLowerStr_fixed (mem_trimStr h)
    have hy_clean : trimStr (toLowerStr y) = y := by
      rw [toLowerStr_fixed hy_lower, trimStr_eq_self hy_nws]
    have hy_notiger : y ≠ ("lsu tigers").data := by
      intro he
      have := hy_nws ' ' (by rw [he]; decide)
      simp at this
    have hy_nolsu : y ≠ "lsu".data := by
      intro he
      have hz_nws : ∀ c ∈ z, Char.isWhitespace c = false := by
        by_contra hcon
        push_neg at hcon
        obtain ⟨c, hc, hne⟩ := hcon
        have : '_' ∈ y :=
          sub_mem_collapseRunsAux z ⟨c, hc, by simpa using hne⟩
        rw [he] at this
        simp at this
      have hzy : y = z := (collapseRunsAux_eq_self z hz_nws : collapseWs z = z)
      have : aliasLookup z teamMappings = some "lsu".data := by
        rw [teamMappings, aliasLookup, if_pos]
        rw [← hzy, he]
        simp
      rw [this] at hl
      cases hl
    have hy_lookup : aliasLookup y teamMappings = none := by
      rw [teamMappings, aliasLookup, if_neg]
      · rfl
      · simp [hy_notiger, hy_nolsu]
    rw [hinner]
    rw [normalizeTeamName]
    simp only [← hydef, hy_clean, hy_lookup]
    exact collapseRunsAux_eq_self y hy_nws
  · -- alias branch: the table's only canonical is "lsu", a fixed point
    have hc : c = "lsu".data := by
      rw [teamMappings, aliasLookup] at hl
      split at hl
      · exact (Option.some.inj hl).symm
      · cases hl
    have hinner : normalizeTeamName teamMappings x = c := by
      rw [normalizeTeamName, hl]
    rw [hinner, hc]
    decide

/-- C8 witness: idempotence instantiated at "LSU Tigers". -/
theorem normalizeTeamName_idempotent_witness :
    normalizeTeamName teamMappings
      (normalizeTeamName teamMappings ("LSU Tigers").data)
      = normalizeTeamName teamMappings ("LSU Tigers").data :=
  normalizeTeamName_idempotent.1 ("LSU Tigers").data

/-- The alias scan returns the first entry containing the alias. -/
theorem aliasLookup_append_first (z : Str) (e1 : Str × List Str)
    (rest : List (Str × List Str)) :
    ∀ pre : List (Str × List Str), (∀ e ∈ pre, z ∉ e.2) → z ∈ e1.2 →
      aliasLookup z (pre ++ e1 :: rest) = some e1.1 := by
  intro pre
  induction pre with
  | nil =>
    intro _ h1
    rw [List.nil_append, aliasLookup, if_pos h1]
  | cons p pre' ih =>
    intro hpre h1
    rw [List.cons_append, aliasLookup,
      if_neg (hpre p (List.mem_cons_self p pre')),
      ih (fun e he => hpre e (List.mem_cons_of_mem p he)) h1]

/-- C10: when the lowercased trimmed input appears in the alias lists of
more than one entry of the team-mappings table, `normalizeTeamName` returns
the canonical name of the first such entry in table order; no error occurs
and the later entries are never consulted. -/
theorem normalizeTeamName_first_entry_wins :
    ∀ (pre : List (Str × List Str)) (e1 : Str × List Str)
      (mid : List (Str × List Str)) (e2 : Str × List Str)
      (post : List (Str × List Str)) (x : Str),
    (∀ e ∈ pre, trimStr (toLowerStr x) ∉ e.2) →
    trimStr (toLowerStr x) ∈ e1.2 →
    trimStr (toLowerStr x) ∈ e2.2 →
    normalizeTeamName (pre ++ e1 :: (mid ++ e2 :: post)) x = e1.1 := by
  intro pre e1 mid e2 post x hpre h1 _
  rw [normalizeTeamName,
    aliasLookup_append_first (trimStr (toLowerStr x)) e1 (mid ++ e2 :: post)
      pre hpre h1]

/-- C10 witness: the alias "tigers" is listed under both "lsu" and
"louisiana_state"; normalization resolves "Tigers" to the earlier "lsu". -/
theorem normalizeTeamName_first_entry_wins_witness :
    normalizeTeamName
      [("lsu".data, ["tigers".data]),
       (("louisiana_state").data, ["tigers".data])] ("Tigers").data
      = "lsu".data :=
  normalizeTeamName_first_entry_wins [] ("lsu".data, ["tigers".data]) []
    (("louisiana_state").data, ["tigers".data]) [] ("Tigers").data
    (by simp) (by decide) (by decide)
